import Mathlib

/-!
Verification of the equivalent-layer estimator (`EQLHarmonic`) and the sample-data
loaders of the Forward_Modelling repository.

The repository ships the example driver `examples/eql/harmonic.py`, which drives
`harmonica.EQLHarmonic`, and `harmonica/datasets/sample_data.py`.  The estimator
itself (source layout, Greens-function operator, damped least-squares solve,
prediction, scoring, gridding) is not part of the shipped sources, so it is
modelled here from the specification; the dataset loaders are translated from
`sample_data.py` directly.  All arithmetic is exact (rational), so numerical
singularity means exact singularity of the normal equations.
-/

open Matrix

namespace ForwardModelling

/-- A point in 3D Cartesian coordinates: easting, northing, upward. -/
structure Point where
  easting : ℚ
  northing : ℚ
  upward : ℚ
  deriving DecidableEq, Repr

/-- The error taxonomy of the estimator (spec section 7). -/
inductive HmError where
  | InvalidParameterError
  | SingularKernelError
  | IllConditionedSystemError
  | NotFittedError
  | DegenerateDataError
  | ShapeMismatchError
  deriving DecidableEq, Repr

/-- Squared Euclidean distance between two points. -/
def dist2 (p q : Point) : ℚ :=
  (p.easting - q.easting) ^ 2 + (p.northing - q.northing) ^ 2 + (p.upward - q.upward) ^ 2

/-- Modelled from the spec: the closed-form point-source kernel giving the field
contribution of a unit-coefficient source at an evaluation point (spec 4.2; the
repository code implementing the `EQLHarmonic` kernel is not under `src/`).  Kept
in exact rational arithmetic as the inverse squared distance, a closed-form
monopole-type kernel, finite and well defined whenever the evaluation point
differs from the source position. -/
def greens (src pt : Point) : ℚ := 1 / dist2 src pt

/-- Modelled from the spec: the Forward Operator (spec 4.2; the repository code
implementing `EQLHarmonic.jacobian` is not under `src/`).  Builds the K×M kernel
matrix whose (k, m) entry is the field of unit-coefficient source m at evaluation
point k, failing with `SingularKernelError` when an evaluation point coincides
with a source position. -/
def jacobian {K M : ℕ} (points : Fin K → Point) (sources : Fin M → Point) :
    Except HmError (Matrix (Fin K) (Fin M) ℚ) :=
  if ∃ (k : Fin K) (m : Fin M), points k = sources m then
    .error .SingularKernelError
  else
    .ok (Matrix.of fun k m => greens (sources m) (points k))

/-- Squared Euclidean norm of a vector. -/
def sqNorm {n : ℕ} (v : Fin n → ℚ) : ℚ := dotProduct v v

/-- The damped least-squares objective of spec 4.3: the squared residual norm plus
the damping parameter times the squared coefficient norm. -/
def lossF {N M : ℕ} (A : Matrix (Fin N) (Fin M) ℚ) (d : Fin N → ℚ) (lam : ℚ)
    (c : Fin M → ℚ) : ℚ :=
  sqNorm (A *ᵥ c - d) + lam * sqNorm c

/-- Explicit inverse of a square rational matrix via the adjugate. -/
def matInv {M : ℕ} (B : Matrix (Fin M) (Fin M) ℚ) : Matrix (Fin M) (Fin M) ℚ :=
  B.det⁻¹ • B.adjugate

/-- The normal-equations matrix `Aᵀ A + λ I` of spec 4.3. -/
def normalMatrix {N M : ℕ} (A : Matrix (Fin N) (Fin M) ℚ) (lam : ℚ) :
    Matrix (Fin M) (Fin M) ℚ :=
  Aᵀ * A + lam • (1 : Matrix (Fin M) (Fin M) ℚ)

/-- Modelled from the spec: the Regularized Least-Squares Solver (spec 4.3; the
repository code implementing the `EQLHarmonic` solve is not under `src/`).  Forms
the normal equations `Aᵀ A + λ I` and solves them; in exact arithmetic the
configurable numerical-singularity tolerance is exact singularity, reported as
`IllConditionedSystemError`. -/
def solveDamped {N M : ℕ} (A : Matrix (Fin N) (Fin M) ℚ) (d : Fin N → ℚ) (lam : ℚ) :
    Except HmError (Fin M → ℚ) :=
  if (normalMatrix A lam).det = 0 then .error .IllConditionedSystemError
  else .ok (matInv (normalMatrix A lam) *ᵥ (Aᵀ *ᵥ d))

/-- The default source layout: one source directly beneath each observation at the
given relative depth. -/
def layoutList (coords : List Point) (relative_depth : ℚ) : List Point :=
  coords.map fun p => ⟨p.easting, p.northing, p.upward - relative_depth⟩

/-- Modelled from the spec: the Source Layout Strategy (spec 4.1; the repository
code implementing `EQLHarmonic` source placement is not under `src/`).  Produces
one source per observation at the observation's horizontal position and at
vertical position `observation.upward - relative_depth`; fails with
`InvalidParameterError` when `relative_depth ≤ 0`. -/
def build_sources (coords : List Point) (relative_depth : ℚ) : Except HmError (List Point) :=
  if relative_depth ≤ 0 then .error .InvalidParameterError
  else .ok (layoutList coords relative_depth)

/-- Minimum of a list of rationals (0 for the empty list). -/
def minD : List ℚ → ℚ
  | [] => 0
  | x :: xs => xs.foldl min x

/-- Maximum of a list of rationals (0 for the empty list). -/
def maxD : List ℚ → ℚ
  | [] => 0
  | x :: xs => xs.foldl max x

/-- Bounding box (W, E, S, N) of the horizontal coordinates of a point list. -/
def regionOf (coords : List Point) : ℚ × ℚ × ℚ × ℚ :=
  (minD (coords.map Point.easting), maxD (coords.map Point.easting),
   minD (coords.map Point.northing), maxD (coords.map Point.northing))

/-- A fitted equivalent layer: the source positions, one scalar coefficient per
source, the damping used, and the bounding region of the training horizontal
coordinates (spec section 3). -/
structure FittedLayer where
  nsources : ℕ
  sources : Fin nsources → Point
  coefs : Fin nsources → ℚ
  damping : ℚ
  region : ℚ × ℚ × ℚ × ℚ
  deriving DecidableEq

/-- The observed-data vector as a function on training indices. -/
def dataVec (data : List ℚ) (N : ℕ) : Fin N → ℚ := fun i => data.getD i.val 0

/-- The point list as a function on its indices. -/
def ptsVec (pts : List Point) : Fin pts.length → Point := fun i => pts.get i

/-- Modelled from the spec: `fit` (spec sections 4.1-4.3 and 6; the repository
code implementing `EQLHarmonic.fit` is not under `src/`).  Validates shapes and
configuration, lays out the sources, builds the Forward Operator at the training
coordinates, solves the damped normal equations, and wraps the coefficients in a
new `FittedLayer` carrying the damping and the training bounding region. -/
def fit (relative_depth damping : ℚ) (coords : List Point) (data : List ℚ) :
    Except HmError FittedLayer :=
  if coords.length ≠ data.length then .error .ShapeMismatchError
  else if damping < 0 then .error .InvalidParameterError
  else
    match build_sources coords relative_depth with
    | .error e => .error e
    | .ok srcs =>
      match jacobian (ptsVec coords) (ptsVec srcs) with
      | .error e => .error e
      | .ok A =>
        match solveDamped A (dataVec data coords.length) damping with
        | .error e => .error e
        | .ok c => .ok ⟨srcs.length, ptsVec srcs, c, damping, regionOf coords⟩

/-- Modelled from the spec: the Prediction Engine (spec 4.4; the repository code
implementing `EQLHarmonic.predict` is not under `src/`).  Rebuilds the Forward
Operator between the layer's sources and the query points and returns
`A_query · c`. -/
def predictLayer (L : FittedLayer) (pts : List Point) : Except HmError (List ℚ) :=
  match jacobian (ptsVec pts) L.sources with
  | .error e => .error e
  | .ok A => .ok (List.ofFn fun k => (A *ᵥ L.coefs) k)

/-- Arithmetic mean of a list (0 for the empty list). -/
def meanL (l : List ℚ) : ℚ := l.sum / l.length

/-- Total sum of squares: squared deviations of the observed values from their mean. -/
def ssTot (data : List ℚ) : ℚ := (data.map fun x => (x - meanL data) ^ 2).sum

/-- Residual sum of squares between observed and predicted values. -/
def ssRes (data pred : List ℚ) : ℚ := (List.zipWith (fun x p => (x - p) ^ 2) data pred).sum

/-- Modelled from the spec: Scoring (spec 4.5; the repository code implementing
`EQLHarmonic.score` is not under `src/`).  Predicts at the observation
coordinates and returns the coefficient of determination `1 - SS_res / SS_tot`,
failing with `DegenerateDataError` when the observed values have zero variance. -/
def scoreLayer (L : FittedLayer) (coords : List Point) (data : List ℚ) : Except HmError ℚ :=
  if coords.length ≠ data.length then .error .ShapeMismatchError
  else
    match predictLayer L coords with
    | .error e => .error e
    | .ok pred =>
      if ssTot data = 0 then .error .DegenerateDataError
      else .ok (1 - ssRes data pred / ssTot data)

/-- Number of whole axis steps covering `[lo, hi]`: the extent over the requested
spacing, rounded to the nearest integer and clamped to at least one step. -/
def nSteps (lo hi s : ℚ) : ℕ := max 1 (round ((hi - lo) / s)).toNat

/-- A regular coordinate axis from `lo` to `hi` whose spacing is the requested one
rounded so that a whole number of steps covers the interval exactly. -/
def axisPoints (lo hi s : ℚ) : List ℚ :=
  List.ofFn fun i : Fin (nSteps lo hi s + 1) =>
    lo + (hi - lo) * i.val / (nSteps lo hi s)

/-- A grid of predicted values together with its coordinate axes and the vertical
metadata (the upward coordinate at which it was evaluated). -/
structure GridResult where
  eastAxis : List ℚ
  northAxis : List ℚ
  upward : ℚ
  values : List (List ℚ)
  deriving DecidableEq

/-- Modelled from the spec: the Gridder (spec 4.6; the repository code
implementing `EQLHarmonic.grid` is not under `src/`).  Builds regular axes over
the layer's stored training bounding region at the requested spacing, evaluates
the Prediction Engine on every grid node at the upward level `extra`, and
packages values with axes and the vertical metadata. -/
def gridLayer (L : FittedLayer) (spacing extra : ℚ) : Except HmError GridResult :=
  match (axisPoints L.region.2.2.1 L.region.2.2.2 spacing).mapM
      (fun y => predictLayer L ((axisPoints L.region.1 L.region.2.1 spacing).map
        fun x => ⟨x, y, extra⟩)) with
  | .error e => .error e
  | .ok rows =>
    .ok ⟨axisPoints L.region.1 L.region.2.1 spacing,
         axisPoints L.region.2.2.1 L.region.2.2.2 spacing, extra, rows⟩

/-- The estimator's session state: the most recently fitted layer, if any. -/
structure Session where
  layer : Option FittedLayer
  deriving DecidableEq

/-- The operations the estimator exposes (spec section 6). -/
inductive Op where
  | fitOp (relative_depth damping : ℚ) (coords : List Point) (data : List ℚ)
  | predictOp (pts : List Point)
  | scoreOp (coords : List Point) (data : List ℚ)
  | gridOp (spacing extra : ℚ)

/-- The results the estimator's operations can return. -/
inductive Out where
  | fitted
  | values (v : List ℚ)
  | scored (r : ℚ)
  | gridded (g : GridResult)
  deriving DecidableEq

/-- Modelled from the spec: the estimator's observable state machine (spec
sections 5-7; the repository code implementing `EQLHarmonic` is not under
`src/`).  `predict`, `score` and `grid` fail with `NotFittedError` before a
successful fit and never change the state; a successful fit installs a new
`FittedLayer` built from its inputs alone; a failed operation leaves the state
unchanged. -/
def step : Op → Session → Except HmError Out × Session
  | .fitOp rd damping coords data, s =>
    match fit rd damping coords data with
    | .error e => (.error e, s)
    | .ok L => (.ok .fitted, ⟨some L⟩)
  | .predictOp pts, s =>
    match s.layer with
    | none => (.error .NotFittedError, s)
    | some L => ((predictLayer L pts).map Out.values, s)
  | .scoreOp coords data, s =>
    match s.layer with
    | none => (.error .NotFittedError, s)
    | some L => ((scoreLayer L coords data).map Out.scored, s)
  | .gridOp sp ex, s =>
    match s.layer with
    | none => (.error .NotFittedError, s)
    | some L => ((gridLayer L sp ex).map Out.gridded, s)

end ForwardModelling

namespace SampleData

/-- Array element type of a stored dataset variable. -/
inductive DType where
  | float64
  | float32
  | int16
  | int32
  deriving DecidableEq, Repr

/-- One data variable of a dataset: its element type. -/
structure DataVar where
  dtype : DType
  deriving DecidableEq, Repr

/-- An xarray-style dataset: its data variables and whether the values are fully
loaded into memory (as opposed to lazily linked to an open file). -/
structure Dataset where
  vars : List DataVar
  inMemory : Bool
  deriving DecidableEq, Repr

/-- `Dataset.astype`: cast every data variable of the dataset to the given dtype,
as `xarray.Dataset.astype` does. -/
def Dataset.astype (ds : Dataset) (t : DType) : Dataset :=
  ⟨ds.vars.map fun _ => ⟨t⟩, ds.inMemory⟩

/-- The filesystem resources `_load_xz_compressed_grid` touches: the temporary
files currently existing and the file handles currently open. -/
structure FSState where
  tempFiles : List ℕ
  openHandles : List ℕ
  deriving DecidableEq, Repr

/-- Failures `_load_xz_compressed_grid` can propagate: an `lzma` decompression
error, or an error from `xarray.open_dataset`. -/
inductive LoadErr where
  | lzmaError
  | openError
  deriving DecidableEq, Repr

/-- The environment of one `_load_xz_compressed_grid` call: the fresh name the
`tempfile` module picks, whether decompression succeeds, whether opening the
decompressed netCDF succeeds, and the dataset stored in the file. -/
structure LoadEnv where
  freshName : ℕ
  decompressOk : Bool
  openOk : Bool
  stored : Dataset
  deriving DecidableEq, Repr

/-- Embedding of `_load_xz_compressed_grid` (sample_data.py lines 143-159).
`tempfile.NamedTemporaryFile(delete=False)` creates the temporary file; the
`try` body decompresses into it, opens it as a dataset, calls `.load()` to pull
the data into memory and `.close()` to close the file handle; the `finally`
clause removes the temporary file on every path, and any exception propagates
after the removal. -/
def load_xz_compressed_grid (env : LoadEnv) (fs : FSState) :
    Except LoadErr Dataset × FSState :=
  let t := env.freshName
  let fs1 : FSState := ⟨t :: fs.tempFiles, fs.openHandles⟩
  if env.decompressOk = false then
    (.error .lzmaError, ⟨fs1.tempFiles.erase t, fs1.openHandles⟩)
  else if env.openOk = false then
    (.error .openError, ⟨fs1.tempFiles.erase t, fs1.openHandles⟩)
  else
    let fs2 : FSState := ⟨fs1.tempFiles, t :: fs1.openHandles⟩
    let grid : Dataset := ⟨env.stored.vars, true⟩
    let fs3 : FSState := ⟨fs2.tempFiles, fs2.openHandles.erase t⟩
    (.ok grid, ⟨fs3.tempFiles.erase t, fs3.openHandles⟩)

/-- Embedding of `fetch_geoid_earth` (sample_data.py lines 25-47): load the
xz-compressed grid and cast it to float64. -/
def fetch_geoid_earth (env : LoadEnv) (fs : FSState) : Except LoadErr Dataset × FSState :=
  let r := load_xz_compressed_grid env fs
  (r.1.map fun d => d.astype .float64, r.2)

/-- Embedding of `fetch_gravity_earth` (sample_data.py lines 50-75): load the
xz-compressed grid and cast it to float64. -/
def fetch_gravity_earth (env : LoadEnv) (fs : FSState) : Except LoadErr Dataset × FSState :=
  let r := load_xz_compressed_grid env fs
  (r.1.map fun d => d.astype .float64, r.2)

/-- Embedding of `fetch_topography_earth` (sample_data.py lines 78-105): load the
xz-compressed grid and cast it to float64. -/
def fetch_topography_earth (env : LoadEnv) (fs : FSState) : Except LoadErr Dataset × FSState :=
  let r := load_xz_compressed_grid env fs
  (r.1.map fun d => d.astype .float64, r.2)

end SampleData

deriving instance DecidableEq for Except

namespace ForwardModelling

/-- A concrete two-point training coordinate set used by the witnesses. -/
def exCoords : List Point := [⟨0, 0, 0⟩, ⟨1, 1, 0⟩]

/-- Concrete training data generated exactly by a unit source beneath the first
observation of `exCoords` at relative depth 1. -/
def exData : List ℚ := [1, 1/3]

/-- The generating coefficients of `exData` on the depth-1 layout of `exCoords`. -/
def exC0 : Fin (layoutList exCoords 1).length → ℚ := fun j => if j.val = 0 then 1 else 0

/-- The layer produced by fitting `exData` on `exCoords` at relative depth 1 with
damping 0, written out explicitly. -/
def exLayer : FittedLayer :=
  ⟨2, fun j => if j.val = 0 then ⟨0, 0, -1⟩ else ⟨1, 1, -1⟩,
   fun j => if j.val = 0 then 1 else 0, 0, (0, 1, 0, 1)⟩

/-- The grid produced by `gridLayer exLayer 1 2` (upward continuation of the
height-0 training data to height 2), written out explicitly. -/
def exGrid : GridResult :=
  ⟨[0, 1], [0, 1], 2, [[1/9, 1/10], [1/10, 1/11]]⟩

end ForwardModelling

namespace ForwardModelling

theorem sqNorm_nonneg {n : ℕ} (v : Fin n → ℚ) : 0 ≤ sqNorm v :=
  Finset.sum_nonneg fun i _ => mul_self_nonneg (v i)

theorem sqNorm_eq_zero {n : ℕ} {v : Fin n → ℚ} (h : sqNorm v = 0) : v = 0 :=
  dotProduct_self_eq_zero.mp h

theorem sqNorm_add {n : ℕ} (u v : Fin n → ℚ) :
    sqNorm (u + v) = sqNorm u + 2 * dotProduct u v + sqNorm v := by
  simp only [sqNorm, dotProduct_add, add_dotProduct, dotProduct_comm v u]
  ring

theorem normalMatrix_mulVec {N M : ℕ} (A : Matrix (Fin N) (Fin M) ℚ) (lam : ℚ)
    (c : Fin M → ℚ) : normalMatrix A lam *ᵥ c = Aᵀ *ᵥ (A *ᵥ c) + lam • c := by
  simp only [normalMatrix, add_mulVec, smul_mulVec_assoc, one_mulVec, mulVec_mulVec]

theorem matInv_mulVec_cancel {M : ℕ} (B : Matrix (Fin M) (Fin M) ℚ) (h : B.det ≠ 0)
    (v : Fin M → ℚ) : B *ᵥ (matInv B *ᵥ v) = v := by
  have h1 : B *ᵥ (matInv B *ᵥ v) = (B * matInv B) *ᵥ v := mulVec_mulVec v B (matInv B)
  have h2 : B * matInv B = 1 := by
    rw [matInv, Matrix.mul_smul, Matrix.mul_adjugate, smul_smul,
      inv_mul_cancel₀ h, one_smul]
  rw [h1, h2, one_mulVec]

theorem solve_minimizes {N M : ℕ} (A : Matrix (Fin N) (Fin M) ℚ) (d : Fin N → ℚ)
    (lam : ℚ) (hlam : 0 ≤ lam) (c : Fin M → ℚ)
    (hc : normalMatrix A lam *ᵥ c = Aᵀ *ᵥ d) (c' : Fin M → ℚ) :
    lossF A d lam c ≤ lossF A d lam c' := by
  set e : Fin M → ℚ := c' - c with he
  have hsplit : c' = c + e := by rw [he]; ring
  have hAc : A *ᵥ c' - d = (A *ᵥ c - d) + A *ᵥ e := by
    rw [hsplit, mulVec_add]; ring
  have hkey : dotProduct (A *ᵥ c - d) (A *ᵥ e) + lam * dotProduct c e = 0 := by
    have h1 : dotProduct (A *ᵥ c - d) (A *ᵥ e) = dotProduct (Aᵀ *ᵥ (A *ᵥ c - d)) e := by
      rw [dotProduct_mulVec, mulVec_transpose]
    have h2 : lam * dotProduct c e = dotProduct (lam • c) e := by
      rw [smul_dotProduct]; simp [smul_eq_mul]
    rw [h1, h2, ← add_dotProduct]
    have h3 : Aᵀ *ᵥ (A *ᵥ c - d) + lam • c = normalMatrix A lam *ᵥ c - Aᵀ *ᵥ d := by
      rw [mulVec_sub, normalMatrix_mulVec]; ring
    rw [h3, hc, sub_self, zero_dotProduct]
  have hexp : lossF A d lam c' =
      lossF A d lam c + (sqNorm (A *ᵥ e) + lam * sqNorm e) +
        2 * (dotProduct (A *ᵥ c - d) (A *ᵥ e) + lam * dotProduct c e) := by
    rw [lossF, lossF, hAc, hsplit, sqNorm_add, sqNorm_add]
    ring
  have hn1 : 0 ≤ sqNorm (A *ᵥ e) := sqNorm_nonneg _
  have hn2 : 0 ≤ sqNorm e := sqNorm_nonneg _
  nlinarith [mul_nonneg hlam hn2]

theorem solveDamped_ok_elim {N M : ℕ} {A : Matrix (Fin N) (Fin M) ℚ} {d : Fin N → ℚ}
    {lam : ℚ} {c : Fin M → ℚ} (h : solveDamped A d lam = .ok c) :
    (normalMatrix A lam).det ≠ 0 ∧ normalMatrix A lam *ᵥ c = Aᵀ *ᵥ d := by
  unfold solveDamped at h
  split at h
  · exact absurd h (by simp)
  · rename_i hdet
    refine ⟨hdet, ?_⟩
    have hc : c = matInv (normalMatrix A lam) *ᵥ (Aᵀ *ᵥ d) := by
      simpa using h.symm
    rw [hc, matInv_mulVec_cancel _ hdet]

end ForwardModelling

namespace ForwardModelling

theorem except_bind_ok {ε α β : Type} {x : Except ε α} {f : α → Except ε β} {b : β}
    (h : x.bind f = .ok b) : ∃ a, x = .ok a ∧ f a = .ok b := by
  cases x with
  | error e => exact absurd h (by simp [Except.bind])
  | ok a => exact ⟨a, rfl, h⟩

theorem jacobian_ok_elim {K M : ℕ} {points : Fin K → Point} {sources : Fin M → Point}
    {A : Matrix (Fin K) (Fin M) ℚ} (h : jacobian points sources = .ok A) :
    A = Matrix.of fun k m => greens (sources m) (points k) := by
  unfold jacobian at h
  split at h
  · exact absurd h (by simp)
  · simpa using h.symm

theorem jacobian_ok_intro {K M : ℕ} (points : Fin K → Point) (sources : Fin M → Point)
    (h : ¬ ∃ (k : Fin K) (m : Fin M), points k = sources m) :
    jacobian points sources = .ok (Matrix.of fun k m => greens (sources m) (points k)) := by
  unfold jacobian
  exact if_neg h

theorem predictLayer_ok_elim {L : FittedLayer} {pts : List Point} {v : List ℚ}
    (h : predictLayer L pts = .ok v) :
    ∃ A, jacobian (ptsVec pts) L.sources = .ok A ∧
      v = List.ofFn fun k => (A *ᵥ L.coefs) k := by
  unfold predictLayer at h
  split at h
  · exact absurd h (by simp)
  · rename_i A hA
    exact ⟨A, hA, by simpa using h.symm⟩

theorem ssRes_nonneg (data pred : List ℚ) : 0 ≤ ssRes data pred := by
  induction data generalizing pred with
  | nil => simp [ssRes]
  | cons x xs ih =>
    cases pred with
    | nil => simp [ssRes]
    | cons p ps =>
      have h1 := ih ps
      simp only [ssRes, List.zipWith_cons_cons, List.sum_cons] at h1 ⊢
      have h2 : 0 ≤ (x - p) ^ 2 := sq_nonneg _
      linarith

theorem ssRes_self (data : List ℚ) : ssRes data data = 0 := by
  induction data with
  | nil => simp [ssRes]
  | cons x xs ih => simp only [ssRes, List.zipWith_cons_cons, List.sum_cons] at ih ⊢; simp [ih]

theorem list_sum_sq_eq_zero {m : ℚ} {l : List ℚ} :
    (l.map fun x => (x - m) ^ 2).sum = 0 ↔ ∀ x ∈ l, x = m := by
  induction l with
  | nil => simp
  | cons a as ih =>
    simp only [List.map_cons, List.sum_cons, List.mem_cons]
    constructor
    · intro h
      have h1 : 0 ≤ (a - m) ^ 2 := sq_nonneg _
      have h2 : 0 ≤ ((as.map fun x => (x - m) ^ 2).sum) :=
        List.sum_nonneg fun x hx => by
          obtain ⟨y, _, rfl⟩ := List.mem_map.mp hx
          exact sq_nonneg _
      have h3 : (a - m) ^ 2 = 0 := by linarith
      have h4 : a = m := by
        have := pow_eq_zero_iff (n := 2) (by norm_num) |>.mp h3
        linarith [sub_eq_zero.mp this]
      refine fun x hx => hx.elim (fun hxa => hxa ▸ h4) fun hxs => (ih.mp (by linarith)) x hxs
    · intro h
      have h4 : a = m := h a (Or.inl rfl)
      have h5 : (as.map fun x => (x - m) ^ 2).sum = 0 :=
        ih.mpr fun x hx => h x (Or.inr hx)
      simp [h4, h5]

theorem list_sum_const {a : ℚ} {l : List ℚ} (h : ∀ x ∈ l, x = a) :
    l.sum = l.length * a := by
  induction l with
  | nil => simp
  | cons x xs ih =>
    have hx : x = a := h x (List.mem_cons_self x xs)
    have hxs : xs.sum = xs.length * a := ih fun y hy => h y (List.mem_cons_of_mem x hy)
    simp [hx, hxs]
    ring

theorem ssTot_nonneg (data : List ℚ) : 0 ≤ ssTot data :=
  List.sum_nonneg fun x hx => by
    obtain ⟨y, _, rfl⟩ := List.mem_map.mp hx
    exact sq_nonneg _

theorem ssTot_eq_zero_iff {data : List ℚ} :
    ssTot data = 0 ↔ ∀ x ∈ data, ∀ y ∈ data, x = y := by
  rw [ssTot, list_sum_sq_eq_zero]
  constructor
  · intro h x hx y hy
    rw [h x hx, h y hy]
  · intro h
    cases data with
    | nil => simp
    | cons a as =>
      have hall : ∀ x ∈ a :: as, x = a := fun x hx =>
        h x hx a (List.mem_cons_self a as)
      have hsum : (a :: as).sum = ((a :: as).length : ℚ) * a := list_sum_const hall
      have hmean : meanL (a :: as) = a := by
        rw [meanL, hsum]
        have hlen : ((a :: as).length : ℚ) ≠ 0 := by
          simp [List.length_cons]
          positivity
        field_simp
      intro x hx
      rw [hmean]
      exact hall x hx

end ForwardModelling

namespace ForwardModelling

theorem getD_eq_get {α : Type} {l : List α} {d : α} {i : ℕ} (h : i < l.length) :
    l.getD i d = l.get ⟨i, h⟩ := by
  rw [List.getD_eq_getElem?_getD, List.getElem?_eq_getElem h]
  rfl

theorem ofFn_dataVec {data : List ℚ} {N : ℕ} (h : N = data.length) :
    List.ofFn (dataVec data N) = data := by
  subst h
  refine List.ext_getElem (by simp) fun i h1 h2 => ?_
  simp only [List.getElem_ofFn, dataVec]
  rw [List.getD_eq_getElem?_getD, List.getElem?_eq_getElem h2]
  rfl

theorem fit_ok_elim {rd damping : ℚ} {coords : List Point} {data : List ℚ}
    {L : FittedLayer} (h : fit rd damping coords data = .ok L) :
    coords.length = data.length ∧ 0 ≤ damping ∧ 0 < rd ∧
    ∃ (A : Matrix (Fin coords.length) (Fin (layoutList coords rd).length) ℚ)
      (c : Fin (layoutList coords rd).length → ℚ),
      jacobian (ptsVec coords) (ptsVec (layoutList coords rd)) = .ok A ∧
      solveDamped A (dataVec data coords.length) damping = .ok c ∧
      L = ⟨(layoutList coords rd).length, ptsVec (layoutList coords rd), c, damping,
        regionOf coords⟩ := by
  unfold fit at h
  split at h
  · exact absurd h (by simp)
  · rename_i hlen
    split at h
    · exact absurd h (by simp)
    · rename_i hdmp
      rw [build_sources] at h
      by_cases hrd : rd ≤ 0
      · rw [if_pos hrd] at h
        exact absurd h (by simp)
      · rw [if_neg hrd] at h
        refine ⟨not_ne_iff.mp hlen, le_of_not_lt hdmp, lt_of_not_le hrd, ?_⟩
        split at h
        · rename_i e he
          simp at he
        · rename_i srcs hsrcs
          obtain rfl : layoutList coords rd = srcs := by simpa using hsrcs
          split at h
          · exact absurd h (by simp)
          · rename_i A hA
            split at h
            · exact absurd h (by simp)
            · rename_i c hc
              exact ⟨A, c, hA, hc, by simpa using h.symm⟩

theorem scoreLayer_ok_elim {L : FittedLayer} {coords : List Point} {data : List ℚ}
    {r : ℚ} (h : scoreLayer L coords data = .ok r) :
    coords.length = data.length ∧
    ∃ pred, predictLayer L coords = .ok pred ∧ ssTot data ≠ 0 ∧
      r = 1 - ssRes data pred / ssTot data := by
  unfold scoreLayer at h
  split at h
  · exact absurd h (by simp)
  · rename_i hlen
    refine ⟨not_ne_iff.mp hlen, ?_⟩
    split at h
    · exact absurd h (by simp)
    · rename_i pred hpred
      split at h
      · exact absurd h (by simp)
      · rename_i htot
        exact ⟨pred, hpred, htot, by simpa using h.symm⟩

theorem foldl_min_le_init (xs : List ℚ) (a : ℚ) : xs.foldl min a ≤ a := by
  induction xs generalizing a with
  | nil => simp
  | cons y ys ih =>
    simp only [List.foldl_cons]
    exact le_trans (ih (min a y)) (min_le_left a y)

theorem foldl_min_le_mem {xs : List ℚ} {x : ℚ} (hx : x ∈ xs) (a : ℚ) :
    xs.foldl min a ≤ x := by
  induction xs generalizing a with
  | nil => exact absurd hx (List.not_mem_nil x)
  | cons y ys ih =>
    simp only [List.foldl_cons]
    rcases List.mem_cons.mp hx with rfl | h
    · exact le_trans (foldl_min_le_init ys (min a x)) (min_le_right a x)
    · exact ih h (min a y)

theorem init_le_foldl_max (xs : List ℚ) (a : ℚ) : a ≤ xs.foldl max a := by
  induction xs generalizing a with
  | nil => simp
  | cons y ys ih =>
    simp only [List.foldl_cons]
    exact le_trans (le_max_left a y) (ih (max a y))

theorem mem_le_foldl_max {xs : List ℚ} {x : ℚ} (hx : x ∈ xs) (a : ℚ) :
    x ≤ xs.foldl max a := by
  induction xs generalizing a with
  | nil => exact absurd hx (List.not_mem_nil x)
  | cons y ys ih =>
    simp only [List.foldl_cons]
    rcases List.mem_cons.mp hx with rfl | h
    · exact le_trans (le_max_right a x) (init_le_foldl_max ys (max a x))
    · exact ih h (max a y)

theorem minD_le {l : List ℚ} {x : ℚ} (hx : x ∈ l) : minD l ≤ x := by
  cases l with
  | nil => exact absurd hx (List.not_mem_nil x)
  | cons a as =>
    rcases List.mem_cons.mp hx with h | h
    · exact h ▸ foldl_min_le_init as a
    · exact foldl_min_le_mem h a

theorem le_maxD {l : List ℚ} {x : ℚ} (hx : x ∈ l) : x ≤ maxD l := by
  cases l with
  | nil => exact absurd hx (List.not_mem_nil x)
  | cons a as =>
    rcases List.mem_cons.mp hx with h | h
    · exact h ▸ init_le_foldl_max as a
    · exact mem_le_foldl_max h a

theorem foldl_min_mem (xs : List ℚ) (a : ℚ) : xs.foldl min a = a ∨ xs.foldl min a ∈ xs := by
  induction xs generalizing a with
  | nil => simp
  | cons y ys ih =>
    simp only [List.foldl_cons, List.mem_cons]
    rcases ih (min a y) with h | h
    · rcases min_choice a y with hm | hm
      · exact Or.inl (h.trans hm)
      · exact Or.inr (Or.inl (h.trans hm))
    · exact Or.inr (Or.inr h)

theorem foldl_max_mem (xs : List ℚ) (a : ℚ) : xs.foldl max a = a ∨ xs.foldl max a ∈ xs := by
  induction xs generalizing a with
  | nil => simp
  | cons y ys ih =>
    simp only [List.foldl_cons, List.mem_cons]
    rcases ih (max a y) with h | h
    · rcases max_choice a y with hm | hm
      · exact Or.inl (h.trans hm)
      · exact Or.inr (Or.inl (h.trans hm))
    · exact Or.inr (Or.inr h)

theorem minD_mem {l : List ℚ} (h : l ≠ []) : minD l ∈ l := by
  cases l with
  | nil => exact absurd rfl h
  | cons a as =>
    show as.foldl min a ∈ a :: as
    rcases foldl_min_mem as a with h1 | h1
    · rw [h1]; exact List.mem_cons_self a as
    · exact List.mem_cons_of_mem a h1

theorem maxD_mem {l : List ℚ} (h : l ≠ []) : maxD l ∈ l := by
  cases l with
  | nil => exact absurd rfl h
  | cons a as =>
    show as.foldl max a ∈ a :: as
    rcases foldl_max_mem as a with h1 | h1
    · rw [h1]; exact List.mem_cons_self a as
    · exact List.mem_cons_of_mem a h1

end ForwardModelling

namespace ForwardModelling

theorem one_le_nSteps (lo hi s : ℚ) : 1 ≤ nSteps lo hi s := le_max_left _ _

theorem nSteps_cast_ne_zero (lo hi s : ℚ) : (nSteps lo hi s : ℚ) ≠ 0 := by
  have h := one_le_nSteps lo hi s
  have h2 : nSteps lo hi s ≠ 0 := by omega
  exact_mod_cast h2

theorem axisPoints_length (lo hi s : ℚ) :
    (axisPoints lo hi s).length = nSteps lo hi s + 1 := by
  simp [axisPoints]

theorem axisPoints_getD (lo hi s : ℚ) {i : ℕ} (h : i < nSteps lo hi s + 1) :
    (axisPoints lo hi s).getD i 0 =
      lo + (hi - lo) * i / (nSteps lo hi s) := by
  have hlen : i < (axisPoints lo hi s).length := by rw [axisPoints_length]; exact h
  rw [List.getD_eq_getElem?_getD, List.getElem?_eq_getElem hlen]
  simp only [axisPoints, List.getElem_ofFn, Option.getD_some]

theorem axisPoints_first (lo hi s : ℚ) : (axisPoints lo hi s).getD 0 0 = lo := by
  rw [axisPoints_getD lo hi s (Nat.succ_pos _)]
  simp

theorem axisPoints_last (lo hi s : ℚ) :
    (axisPoints lo hi s).getD (nSteps lo hi s) 0 = hi := by
  rw [axisPoints_getD lo hi s (Nat.lt_succ_self _)]
  have hn := nSteps_cast_ne_zero lo hi s
  field_simp

theorem axisPoints_step (lo hi s : ℚ) {i : ℕ}
    (h : i + 1 < (axisPoints lo hi s).length) :
    (axisPoints lo hi s).getD (i + 1) 0 - (axisPoints lo hi s).getD i 0 =
      (hi - lo) / (nSteps lo hi s) := by
  rw [axisPoints_length] at h
  rw [axisPoints_getD lo hi s h, axisPoints_getD lo hi s (by omega)]
  have hn := nSteps_cast_ne_zero lo hi s
  push_cast
  field_simp
  ring

theorem nSteps_step_tolerance (lo hi s : ℚ) (hs : 0 < s)
    (hx : 1 / 2 ≤ (hi - lo) / s) :
    |(hi - lo) / (nSteps lo hi s : ℚ) - s| ≤ s / 2 := by
  set x : ℚ := (hi - lo) / s with hxdef
  have hround : 1 ≤ round x := by
    rw [round_eq]
    exact Int.le_floor.mpr (by push_cast; linarith)
  have h0 : (0 : ℤ) ≤ round x := by linarith
  have h1 : ((round x).toNat : ℤ) = round x := Int.toNat_of_nonneg h0
  have h2 : 1 ≤ (round x).toNat := by omega
  have h3 : nSteps lo hi s = (round x).toNat := max_eq_right h2
  have hcast : ((nSteps lo hi s : ℚ)) = ((round x : ℤ) : ℚ) := by
    rw [h3]
    exact_mod_cast congrArg (fun z : ℤ => (z : ℚ)) h1
  set n : ℚ := (nSteps lo hi s : ℚ) with hndef
  have hn1 : 1 ≤ n := by
    rw [hndef]
    exact_mod_cast one_le_nSteps lo hi s
  have hnpos : 0 < n := lt_of_lt_of_le one_pos hn1
  have habs : |x - n| ≤ 1 / 2 := by
    rw [hcast]
    exact abs_sub_round x
  have hxs : hi - lo = x * s := by
    rw [hxdef]
    field_simp
  have key : (hi - lo) / n - s = s * ((x - n) / n) := by
    rw [hxs]
    field_simp
    ring
  rw [key, abs_mul, abs_of_pos hs, abs_div, abs_of_pos hnpos]
  have hq : |x - n| / n ≤ 1 / 2 := by
    calc |x - n| / n ≤ (1 / 2) / n := (div_le_div_iff_of_pos_right hnpos).mpr habs
      _ ≤ 1 / 2 := div_le_self (by norm_num) hn1
  calc s * (|x - n| / n) ≤ s * (1 / 2) := by
        exact mul_le_mul_of_nonneg_left hq (le_of_lt hs)
    _ = s / 2 := by ring

theorem gridLayer_ok_elim {L : FittedLayer} {s ex : ℚ} {g : GridResult}
    (h : gridLayer L s ex = .ok g) :
    g.eastAxis = axisPoints L.region.1 L.region.2.1 s ∧
    g.northAxis = axisPoints L.region.2.2.1 L.region.2.2.2 s ∧
    g.upward = ex := by
  unfold gridLayer at h
  split at h
  · exact absurd h (by simp)
  · rename_i rows hrows
    have hg : g = ⟨axisPoints L.region.1 L.region.2.1 s,
        axisPoints L.region.2.2.1 L.region.2.2.2 s, ex, rows⟩ := by
      simpa using h.symm
    rw [hg]
    exact ⟨rfl, rfl, rfl⟩

end ForwardModelling

namespace ForwardModelling

theorem step_error_frame (op : Op) (s : Session) (e : HmError)
    (h : (step op s).1 = .error e) : (step op s).2 = s := by
  cases op with
  | fitOp rd dmp cs ds =>
    cases hfit : fit rd dmp cs ds with
    | error e2 => simp [step, hfit]
    | ok L => simp [step, hfit] at h
  | predictOp pts => cases hl : s.layer <;> simp [step, hl]
  | scoreOp cs ds => cases hl : s.layer <;> simp [step, hl]
  | gridOp sp ex => cases hl : s.layer <;> simp [step, hl]

theorem step_fit_new_instance (rd dmp : ℚ) (cs : List Point) (ds : List ℚ)
    (s s' : Session) (h : (step (.fitOp rd dmp cs ds) s).1 = .ok .fitted) :
    (step (.fitOp rd dmp cs ds) s).2 = (step (.fitOp rd dmp cs ds) s').2 := by
  cases hfit : fit rd dmp cs ds with
  | error e2 => simp [step, hfit] at h
  | ok L => simp [step, hfit]

/-- C1: for every design matrix `A`, observed vector `d` and damping `λ ≥ 0`, the
solver returns the coefficient vector minimizing `‖Ac - d‖² + λ‖c‖²` (it solves
the normal equations `Aᵀ A + λ I`, and any coefficient vector it returns beats
every other candidate); with `λ = 0` the same statement is ordinary least
squares, and the solve fails with `IllConditionedSystemError` when the system is
singular (the exact-arithmetic reading of the configured numerical tolerance). -/
theorem C1_solver_minimizes {N M : ℕ} (A : Matrix (Fin N) (Fin M) ℚ)
    (d : Fin N → ℚ) (lam : ℚ) (hlam : 0 ≤ lam) :
    (∀ c, solveDamped A d lam = .ok c → ∀ c', lossF A d lam c ≤ lossF A d lam c') ∧
    ((normalMatrix A lam).det = 0 →
      solveDamped A d lam = .error .IllConditionedSystemError) := by
  constructor
  · intro c hc c'
    obtain ⟨hdet, hnorm⟩ := solveDamped_ok_elim hc
    exact solve_minimizes A d lam hlam c hnorm c'
  · intro hdet
    rw [solveDamped, if_pos hdet]

/-- Witness for C1: a concrete 1×1 ordinary least-squares system where the
returned coefficients minimize the objective, and a concrete singular system
reported as ill conditioned. -/
theorem C1_solver_minimizes_witness :
    lossF (Matrix.of fun (_ : Fin 1) (_ : Fin 1) => (1 : ℚ)) (fun _ => 2) 0
        (matInv (normalMatrix (Matrix.of fun (_ : Fin 1) (_ : Fin 1) => (1 : ℚ)) 0) *ᵥ
          ((Matrix.of fun (_ : Fin 1) (_ : Fin 1) => (1 : ℚ))ᵀ *ᵥ fun _ => 2)) ≤
      lossF (Matrix.of fun (_ : Fin 1) (_ : Fin 1) => (1 : ℚ)) (fun _ => 2) 0 (fun _ => 0) ∧
    solveDamped (Matrix.of fun (_ : Fin 1) (_ : Fin 1) => (0 : ℚ)) (fun _ => 2) 0 =
      .error .IllConditionedSystemError := by
  constructor
  · exact (C1_solver_minimizes (Matrix.of fun _ _ => (1 : ℚ)) (fun _ => 2) 0 le_rfl).1 _
      (by rw [solveDamped, if_neg (by with_unfolding_all decide :
        ¬ (normalMatrix (Matrix.of fun (_ : Fin 1) (_ : Fin 1) => (1 : ℚ)) 0).det = 0)]) _
  · exact (C1_solver_minimizes (Matrix.of fun _ _ => (0 : ℚ)) (fun _ => 2) 0 le_rfl).2
      (by with_unfolding_all decide)

/-- C2: for every training set and `relative_depth > 0` the default layout puts
one source per observation, at the observation's horizontal position and at
vertical position `observation.upward - relative_depth`; any
`relative_depth ≤ 0` fails with `InvalidParameterError`. -/
theorem C2_source_layout (coords : List Point) (rd : ℚ) (srcs : List Point) :
    (rd ≤ 0 → build_sources coords rd = .error .InvalidParameterError) ∧
    (0 < rd → ∀ e, build_sources coords rd ≠ .error e) ∧
    (build_sources coords rd = .ok srcs →
      srcs.length = coords.length ∧
      ∀ i, i < srcs.length →
        (srcs.getD i ⟨0, 0, 0⟩).easting = (coords.getD i ⟨0, 0, 0⟩).easting ∧
        (srcs.getD i ⟨0, 0, 0⟩).northing = (coords.getD i ⟨0, 0, 0⟩).northing ∧
        (srcs.getD i ⟨0, 0, 0⟩).upward = (coords.getD i ⟨0, 0, 0⟩).upward - rd) := by
  refine ⟨?_, ?_, ?_⟩
  · intro h
    rw [build_sources, if_pos h]
  · intro h e
    rw [build_sources, if_neg (not_le.mpr h)]
    simp
  · intro h
    have hsrcs : srcs = layoutList coords rd := by
      rw [build_sources] at h
      split at h
      · exact absurd h (by simp)
      · simpa using h.symm
    subst hsrcs
    refine ⟨by simp [layoutList], fun i hi => ?_⟩
    have hi1 : i < (layoutList coords rd).length := hi
    have hi2 : i < coords.length := by simpa [layoutList] using hi
    rw [getD_eq_get hi1, getD_eq_get hi2]
    simp [layoutList, List.get_eq_getElem, List.getElem_map]

/-- Witness for C2: a one-observation layout at depth 3, and rejection of a
negative depth. -/
theorem C2_source_layout_witness :
    build_sources [(⟨1, 2, 10⟩ : Point)] (-1) = .error .InvalidParameterError ∧
    (([(⟨1, 2, 7⟩ : Point)]).getD 0 ⟨0, 0, 0⟩).upward =
      (([(⟨1, 2, 10⟩ : Point)]).getD 0 ⟨0, 0, 0⟩).upward - 3 := by
  constructor
  · exact (C2_source_layout [⟨1, 2, 10⟩] (-1) []).1 (by norm_num)
  · have h := (C2_source_layout [⟨1, 2, 10⟩] 3 [⟨1, 2, 7⟩]).2.2
      (by rw [build_sources, if_neg (by norm_num : ¬ (3 : ℚ) ≤ 0)]
          with_unfolding_all decide)
    exact (h.2 0 (by simp)).2.2

/-- C7: `predict` is a deterministic function of the layer and the coordinates
with no hidden mutable state: one predict call leaves the session unchanged, and
an immediately repeated call with identical coordinates returns the identical
result. -/
theorem C7_predict_deterministic (s : Session) (pts : List Point) :
    (step (.predictOp pts) s).2 = s ∧
    (step (.predictOp pts) ((step (.predictOp pts) s).2)).1 =
      (step (.predictOp pts) s).1 := by
  cases hl : s.layer <;> simp [step, hl]

/-- C8: a fitted layer is never mutated: every failing operation leaves the
session (hence any previously returned layer) exactly as it was, and a
successful re-fit installs a fresh layer computed from the fit inputs alone,
independent of whatever layer the session held before. -/
theorem C8_layer_immutable (op : Op) (s s' : Session) (e : HmError)
    (rd damping : ℚ) (coords : List Point) (data : List ℚ) :
    ((step op s).1 = .error e → (step op s).2 = s) ∧
    ((step (.fitOp rd damping coords data) s).1 = .ok .fitted →
      (step (.fitOp rd damping coords data) s).2 =
        (step (.fitOp rd damping coords data) s').2) :=
  ⟨step_error_frame op s e, step_fit_new_instance rd damping coords data s s'⟩

/-- Witness for C8: a failing predict leaves the empty session unchanged, and a
concrete successful fit produces the same new state from two different prior
sessions. -/
theorem C8_layer_immutable_witness :
    (step (.predictOp []) ⟨none⟩).2 = ⟨none⟩ ∧
    (step (.fitOp 1 0 [⟨0, 0, 0⟩, ⟨1, 1, 0⟩] [1, 1/3]) ⟨none⟩).2 =
      (step (.fitOp 1 0 [⟨0, 0, 0⟩, ⟨1, 1, 0⟩] [1, 1/3])
        ⟨some ⟨0, Fin.elim0, Fin.elim0, 5, (1, 2, 3, 4)⟩⟩).2 := by
  constructor
  · exact (C8_layer_immutable (.predictOp []) ⟨none⟩ ⟨none⟩ .NotFittedError
      0 0 [] []).1 (by simp [step])
  · exact (C8_layer_immutable (.predictOp []) ⟨none⟩
      ⟨some ⟨0, Fin.elim0, Fin.elim0, 5, (1, 2, 3, 4)⟩⟩ .NotFittedError
      1 0 [⟨0, 0, 0⟩, ⟨1, 1, 0⟩] [1, 1/3]).2 (by with_unfolding_all decide)

end ForwardModelling

namespace SampleData

theorem except_map_ok {ε α β : Type} {f : α → β} {x : Except ε α} {b : β}
    (h : x.map f = .ok b) : ∃ a, x = .ok a ∧ b = f a := by
  cases x with
  | error e => exact absurd h (by simp [Except.map])
  | ok a => exact ⟨a, rfl, by simpa [Except.map] using h.symm⟩

theorem astype_all_float64 (d : Dataset) :
    ∀ v ∈ (d.astype .float64).vars, v.dtype = .float64 := by
  intro v hv
  simp only [Dataset.astype] at hv
  obtain ⟨a, _, rfl⟩ := List.mem_map.mp hv
  rfl

/-- C9: `_load_xz_compressed_grid` removes the temporary decompressed file on
every execution path, including when decompression or dataset opening raises;
the filesystem state (temporary files and open handles) after the call is
exactly the state before it, and on success the returned grid is fully loaded
into memory. -/
theorem C9_load_xz_cleanup (env : LoadEnv) (fs : FSState) :
    (load_xz_compressed_grid env fs).2 = fs ∧
    (env.decompressOk = true → env.openOk = true →
      (load_xz_compressed_grid env fs).1 = .ok ⟨env.stored.vars, true⟩) := by
  rcases env with ⟨t, dok, ook, stored⟩
  rcases fs with ⟨tf, oh⟩
  cases dok <;> cases ook <;>
    simp [load_xz_compressed_grid, List.erase_cons_head]

/-- Witness for C9: a concrete successful load returns the stored variables
loaded into memory and restores the filesystem state. -/
theorem C9_load_xz_cleanup_witness :
    (load_xz_compressed_grid ⟨7, true, true, ⟨[⟨.int16⟩, ⟨.float32⟩], false⟩⟩
      ⟨[3], [4]⟩).1 = .ok ⟨[⟨.int16⟩, ⟨.float32⟩], true⟩ ∧
    (load_xz_compressed_grid ⟨7, true, true, ⟨[⟨.int16⟩, ⟨.float32⟩], false⟩⟩
      ⟨[3], [4]⟩).2 = ⟨[3], [4]⟩ := by
  constructor
  · exact (C9_load_xz_cleanup ⟨7, true, true, ⟨[⟨.int16⟩, ⟨.float32⟩], false⟩⟩
      ⟨[3], [4]⟩).2 rfl rfl
  · exact (C9_load_xz_cleanup ⟨7, true, true, ⟨[⟨.int16⟩, ⟨.float32⟩], false⟩⟩
      ⟨[3], [4]⟩).1

/-- C10: whatever dtypes the stored files use, any dataset returned by
`fetch_geoid_earth`, `fetch_gravity_earth` or `fetch_topography_earth` has all
its data variables cast to float64. -/
theorem C10_fetchers_float64 (env : LoadEnv) (fs : FSState) (ds : Dataset) :
    ((fetch_geoid_earth env fs).1 = .ok ds → ∀ v ∈ ds.vars, v.dtype = .float64) ∧
    ((fetch_gravity_earth env fs).1 = .ok ds → ∀ v ∈ ds.vars, v.dtype = .float64) ∧
    ((fetch_topography_earth env fs).1 = .ok ds → ∀ v ∈ ds.vars, v.dtype = .float64) := by
  refine ⟨?_, ?_, ?_⟩ <;>
  · intro h
    obtain ⟨d0, hd0, rfl⟩ := except_map_ok h
    exact astype_all_float64 d0

/-- Witness for C10: fetching a concrete stored dataset whose variables are
int16 and float32 yields all-float64 variables. -/
theorem C10_fetchers_float64_witness :
    (fetch_geoid_earth ⟨7, true, true, ⟨[⟨.int16⟩, ⟨.float32⟩], false⟩⟩
      ⟨[], []⟩).1 = .ok ⟨[⟨.float64⟩, ⟨.float64⟩], true⟩ ∧
    (⟨.float64⟩ : DataVar).dtype = .float64 := by
  have h1 : (fetch_geoid_earth ⟨7, true, true, ⟨[⟨.int16⟩, ⟨.float32⟩], false⟩⟩
      ⟨[], []⟩).1 = .ok ⟨[⟨.float64⟩, ⟨.float64⟩], true⟩ := by decide
  refine ⟨h1, ?_⟩
  exact (C10_fetchers_float64 ⟨7, true, true, ⟨[⟨.int16⟩, ⟨.float32⟩], false⟩⟩
    ⟨[], []⟩ ⟨[⟨.float64⟩, ⟨.float64⟩], true⟩).1 h1 ⟨.float64⟩ (by simp)

end SampleData

namespace ForwardModelling

set_option maxRecDepth 4000

theorem getD_ofFn {n : ℕ} (f : Fin n → ℚ) (i : Fin n) :
    (List.ofFn f).getD i.val 0 = f i := by
  have h : i.val < (List.ofFn f).length := by simp
  rw [getD_eq_get h, List.get_ofFn]
  congr 1

/-- C4: `score` returns the coefficient of determination `1 - SS_res / SS_tot`
(residual sum of squares over total sum of squares about the mean), returns 1
for a perfect fit, can be negative (a concrete worse-than-the-mean instance is
included), and fails with `DegenerateDataError` exactly when all observed
values are identical. -/
theorem C4_score_r2 (L : FittedLayer) (coords : List Point) (data pred : List ℚ)
    (hlen : coords.length = data.length)
    (hp : predictLayer L coords = .ok pred) :
    (scoreLayer L coords data = .error .DegenerateDataError ↔
      ∀ x ∈ data, ∀ y ∈ data, x = y) ∧
    (¬ (∀ x ∈ data, ∀ y ∈ data, x = y) →
      scoreLayer L coords data = .ok (1 - ssRes data pred / ssTot data)) ∧
    (pred = data → ¬ (∀ x ∈ data, ∀ y ∈ data, x = y) →
      scoreLayer L coords data = .ok 1) ∧
    (scoreLayer ⟨1, fun _ => ⟨0, 0, -1⟩, fun _ => 0, 0, (0, 0, 0, 0)⟩
        [⟨0, 0, 0⟩, ⟨1, 0, 0⟩] [1, 3] = .ok (-4) ∧ (-4 : ℚ) < 0) := by
  have hskel : scoreLayer L coords data =
      if ssTot data = 0 then .error .DegenerateDataError
      else .ok (1 - ssRes data pred / ssTot data) := by
    unfold scoreLayer
    rw [if_neg (not_ne_iff.mpr hlen), hp]
  refine ⟨?_, ?_, ?_, ?_, by norm_num⟩
  · rw [hskel]
    by_cases ht : ssTot data = 0
    · rw [if_pos ht]
      exact ⟨fun _ => ssTot_eq_zero_iff.mp ht, fun _ => rfl⟩
    · rw [if_neg ht]
      constructor
      · intro h
        exact absurd h (by simp)
      · intro hall
        exact absurd (ssTot_eq_zero_iff.mpr hall) ht
  · intro hne
    rw [hskel, if_neg fun ht => hne (ssTot_eq_zero_iff.mp ht)]
  · intro hpd hne
    cases hpd
    rw [hskel, if_neg fun ht => hne (ssTot_eq_zero_iff.mp ht), ssRes_self]
    norm_num
  · with_unfolding_all decide

/-- Witness for C4: scoring the explicitly fitted layer on its own training data
returns exactly 1. -/
theorem C4_score_r2_witness :
    scoreLayer exLayer exCoords exData = .ok 1 := by
  have hp : predictLayer exLayer exCoords = .ok exData := by
    with_unfolding_all decide
  have hne : ¬ (∀ x ∈ exData, ∀ y ∈ exData, x = y) := by
    with_unfolding_all decide
  exact (C4_score_r2 exLayer exCoords exData exData rfl hp).2.2.1 rfl hne

/-- C5: with no fitted layer, predict, score and grid all fail with
`NotFittedError`; a successful fit installs a layer; and prediction with a
fitted layer accepts query coordinates at any vertical level (whenever no query
point coincides with a source position), returning `A_query · c`, a vector with
one entry per query point. -/
theorem C5_not_fitted_then_predict (s : Session) (pts coords : List Point)
    (data : List ℚ) (sp ex rd damping : ℚ) (qs : List Point) :
    (s.layer = none →
      (step (.predictOp pts) s).1 = .error .NotFittedError ∧
      (step (.scoreOp coords data) s).1 = .error .NotFittedError ∧
      (step (.gridOp sp ex) s).1 = .error .NotFittedError) ∧
    ((step (.fitOp rd damping coords data) s).1 = .ok .fitted →
      ∃ L, (step (.fitOp rd damping coords data) s).2.layer = some L) ∧
    (∀ L : FittedLayer,
      (¬ ∃ (k : Fin qs.length) (m : Fin L.nsources), qs.get k = L.sources m) →
      ∃ v, predictLayer L qs = .ok v ∧ v.length = qs.length ∧
        ∀ k : Fin qs.length,
          v.getD k.val 0 =
            dotProduct (fun m => greens (L.sources m) (qs.get k)) L.coefs) := by
  refine ⟨?_, ?_, ?_⟩
  · intro h
    exact ⟨by simp [step, h], by simp [step, h], by simp [step, h]⟩
  · intro h
    cases hfit : fit rd damping coords data with
    | error e => simp [step, hfit] at h
    | ok L => exact ⟨L, by simp [step, hfit]⟩
  · intro L hnc
    have hj : jacobian (ptsVec qs) L.sources =
        .ok (Matrix.of fun k m => greens (L.sources m) (ptsVec qs k)) :=
      jacobian_ok_intro (ptsVec qs) L.sources hnc
    refine ⟨_, by rw [predictLayer, hj], by simp, fun k => ?_⟩
    rw [getD_ofFn]
    rfl

/-- Witness for C5: all three operations fail on the unfitted session, and a
prediction with the explicit fitted layer at an arbitrary height returns one
value per query point. -/
theorem C5_not_fitted_then_predict_witness :
    (step (.predictOp [⟨5, 5, 5⟩]) ⟨none⟩).1 = .error .NotFittedError ∧
    (step (.scoreOp [] []) ⟨none⟩).1 = .error .NotFittedError ∧
    (step (.gridOp 1 500) ⟨none⟩).1 = .error .NotFittedError ∧
    ([(1 : ℚ)/86]).length = [(⟨5, 5, 5⟩ : Point)].length := by
  have h := C5_not_fitted_then_predict ⟨none⟩ [⟨5, 5, 5⟩] [] [] 1 500 0 0 [⟨5, 5, 5⟩]
  obtain ⟨h1, h2, h3⟩ := h.1 rfl
  refine ⟨h1, h2, h3, ?_⟩
  obtain ⟨v, hv, hvlen, _⟩ := h.2.2 exLayer (by with_unfolding_all decide)
  have hv2 : predictLayer exLayer [⟨5, 5, 5⟩] = .ok [(1 : ℚ)/86] := by
    with_unfolding_all decide
  have hveq : v = [(1 : ℚ)/86] := by
    have := hv.symm.trans hv2
    simpa using this
  rw [hveq] at hvlen
  exact hvlen

end ForwardModelling

namespace ForwardModelling

/-- C3: for a layer obtained from `fit`, `gridLayer` returns axes that form a
regular lattice whose adjusted spacing is within rounding tolerance (half the
requested spacing, under the stated extent conditions) of the request, whose
endpoints are exactly the stored bounding region — which `fit` sets to the
bounding box of the training horizontal coordinates — and whose vertical
metadata equals the supplied extra coordinate, independent of training heights. -/
theorem C3_grid_lattice (L : FittedLayer) (s ex : ℚ) (g : GridResult)
    (rd damping : ℚ) (coords : List Point) (data : List ℚ)
    (hg : gridLayer L s ex = .ok g)
    (hfr : (fit rd damping coords data).map FittedLayer.region = .ok L.region)
    (hs : 0 < s)
    (hwe : 1 / 2 ≤ (L.region.2.1 - L.region.1) / s)
    (hsn : 1 / 2 ≤ (L.region.2.2.2 - L.region.2.2.1) / s) :
    g.upward = ex ∧
    (∀ i : ℕ, i + 1 < g.eastAxis.length →
      g.eastAxis.getD (i + 1) 0 - g.eastAxis.getD i 0 =
        (L.region.2.1 - L.region.1) / (nSteps L.region.1 L.region.2.1 s : ℚ)) ∧
    |(L.region.2.1 - L.region.1) / (nSteps L.region.1 L.region.2.1 s : ℚ) - s| ≤ s / 2 ∧
    g.eastAxis.getD 0 0 = L.region.1 ∧
    g.eastAxis.getD (g.eastAxis.length - 1) 0 = L.region.2.1 ∧
    (∀ i : ℕ, i + 1 < g.northAxis.length →
      g.northAxis.getD (i + 1) 0 - g.northAxis.getD i 0 =
        (L.region.2.2.2 - L.region.2.2.1) / (nSteps L.region.2.2.1 L.region.2.2.2 s : ℚ)) ∧
    |(L.region.2.2.2 - L.region.2.2.1) /
        (nSteps L.region.2.2.1 L.region.2.2.2 s : ℚ) - s| ≤ s / 2 ∧
    g.northAxis.getD 0 0 = L.region.2.2.1 ∧
    g.northAxis.getD (g.northAxis.length - 1) 0 = L.region.2.2.2 ∧
    L.region = regionOf coords ∧
    (∀ p ∈ coords, L.region.1 ≤ p.easting ∧ p.easting ≤ L.region.2.1 ∧
      L.region.2.2.1 ≤ p.northing ∧ p.northing ≤ L.region.2.2.2) := by
  obtain ⟨he, hn, hu⟩ := gridLayer_ok_elim hg
  have hreg : L.region = regionOf coords := by
    obtain ⟨L0, hL0, hLr⟩ := SampleData.except_map_ok hfr
    obtain ⟨_, _, _, _, _, _, _, hL0eq⟩ := fit_ok_elim hL0
    rw [hLr, hL0eq]
  refine ⟨hu, ?_, nSteps_step_tolerance _ _ _ hs hwe, ?_, ?_, ?_,
    nSteps_step_tolerance _ _ _ hs hsn, ?_, ?_, hreg, ?_⟩
  · intro i hi
    rw [he] at hi ⊢
    exact axisPoints_step _ _ _ hi
  · rw [he]
    exact axisPoints_first _ _ _
  · rw [he, axisPoints_length]
    simpa using axisPoints_last L.region.1 L.region.2.1 s
  · intro i hi
    rw [hn] at hi ⊢
    exact axisPoints_step _ _ _ hi
  · rw [hn]
    exact axisPoints_first _ _ _
  · rw [hn, axisPoints_length]
    simpa using axisPoints_last L.region.2.2.1 L.region.2.2.2 s
  · intro p hp
    rw [hreg]
    have h1 : p.easting ∈ coords.map Point.easting := List.mem_map_of_mem _ hp
    have h2 : p.northing ∈ coords.map Point.northing := List.mem_map_of_mem _ hp
    exact ⟨minD_le h1, le_maxD h1, minD_le h2, le_maxD h2⟩

set_option maxRecDepth 8000 in
set_option maxHeartbeats 1000000 in
/-- Witness for C3: gridding the explicitly fitted layer at spacing 1 and
upward coordinate 2 gives unit-spaced axes over the training bounding box and
vertical metadata 2, independent of the height-0 training data. -/
theorem C3_grid_lattice_witness :
    exGrid.upward = 2 ∧
    exGrid.eastAxis.getD 0 0 = 0 ∧
    exGrid.eastAxis.getD (exGrid.eastAxis.length - 1) 0 = 1 := by
  have hg : gridLayer exLayer 1 2 = .ok exGrid := by
    with_unfolding_all decide
  have hfr : (fit 1 0 exCoords exData).map FittedLayer.region = .ok exLayer.region := by
    with_unfolding_all decide
  have h := C3_grid_lattice exLayer 1 2 exGrid 1 0 exCoords exData hg hfr
    (by norm_num) (by norm_num [exLayer]) (by norm_num [exLayer])
  exact ⟨h.1, h.2.2.2.1, h.2.2.2.2.1⟩

end ForwardModelling

namespace ForwardModelling

set_option maxRecDepth 4000

/-- C6: `fit` followed by `score` on the same data returns a value at most 1,
and the value is exactly 1 in the noiseless synthetic case: damping 0 and data
generated exactly by a known point-source layer on the fitted source layout. -/
theorem C6_fit_score_le_one (rd damping : ℚ) (coords : List Point)
    (data : List ℚ) (r : ℚ) (c0 : Fin (layoutList coords rd).length → ℚ)
    (d0 : ℚ) (reg : ℚ × ℚ × ℚ × ℚ)
    (hfs : (fit rd damping coords data).bind
      (fun L => scoreLayer L coords data) = .ok r) :
    r ≤ 1 ∧
    (damping = 0 →
      predictLayer ⟨(layoutList coords rd).length, ptsVec (layoutList coords rd),
        c0, d0, reg⟩ coords = .ok data →
      r = 1) := by
  obtain ⟨L, hfit, hsc⟩ := except_bind_ok hfs
  obtain ⟨hlen2, pred, hpred, htot, hr⟩ := scoreLayer_ok_elim hsc
  constructor
  · have hpos : 0 < ssTot data := lt_of_le_of_ne (ssTot_nonneg data) (Ne.symm htot)
    have hq : 0 ≤ ssRes data pred / ssTot data :=
      div_nonneg (ssRes_nonneg data pred) (le_of_lt hpos)
    rw [hr]
    linarith
  · intro hdmp hgen
    subst hdmp
    obtain ⟨hlen, _, hrdpos, A, c, hA, hsol, hL⟩ := fit_ok_elim hfit
    subst hL
    obtain ⟨A2, hA2, hdata⟩ := predictLayer_ok_elim hgen
    have hAA2 : A = A2 := Except.ok.inj (hA.symm.trans hA2)
    subst hAA2
    have hd : dataVec data coords.length = A *ᵥ c0 := by
      funext i
      show data.getD i.val 0 = (A *ᵥ c0) i
      rw [hdata, getD_ofFn]
    obtain ⟨hdet, hnorm⟩ := solveDamped_ok_elim hsol
    have hmin := solve_minimizes A (dataVec data coords.length) 0 le_rfl c hnorm c0
    have hzero : lossF A (dataVec data coords.length) 0 c0 = 0 := by
      rw [lossF, hd, sub_self]
      simp [sqNorm]
    have hcnn : 0 ≤ sqNorm (A *ᵥ c - dataVec data coords.length) := sqNorm_nonneg _
    have hlc : lossF A (dataVec data coords.length) 0 c =
        sqNorm (A *ᵥ c - dataVec data coords.length) := by
      rw [lossF]
      ring
    have hszero : sqNorm (A *ᵥ c - dataVec data coords.length) = 0 := by
      rw [hzero] at hmin
      rw [hlc] at hmin
      linarith
    have hAc : A *ᵥ c = dataVec data coords.length :=
      sub_eq_zero.mp (sqNorm_eq_zero hszero)
    obtain ⟨A3, hA3, hpredeq⟩ := predictLayer_ok_elim hpred
    have hAA3 : A = A3 := Except.ok.inj (hA.symm.trans hA3)
    subst hAA3
    have hpd : pred = data := by
      rw [hpredeq]
      show List.ofFn (fun k => (A *ᵥ c) k) = data
      have hfn : (fun k => (A *ᵥ c) k) = dataVec data coords.length := by
        funext k
        rw [hAc]
      rw [hfn]
      exact ofFn_dataVec hlen
    rw [hr, hpd, ssRes_self, zero_div, sub_zero]

/-- Witness for C6: the concrete noiseless fit-then-score chain evaluates to
exactly 1, and 1 ≤ 1. -/
theorem C6_fit_score_le_one_witness :
    ((fit 1 0 exCoords exData).bind
      (fun L => scoreLayer L exCoords exData) = .ok 1) ∧
    (1 : ℚ) ≤ 1 ∧ (1 : ℚ) = 1 := by
  have hfs : (fit 1 0 exCoords exData).bind
      (fun L => scoreLayer L exCoords exData) = .ok 1 := by
    with_unfolding_all decide
  have hgen : predictLayer ⟨(layoutList exCoords 1).length,
      ptsVec (layoutList exCoords 1), exC0, 3, (0, 0, 0, 0)⟩ exCoords = .ok exData := by
    with_unfolding_all decide
  have h := C6_fit_score_le_one 1 0 exCoords exData 1 exC0 3 (0, 0, 0, 0) hfs
  exact ⟨hfs, h.1, h.2 rfl hgen⟩

end ForwardModelling
